import Mathlib

/-!
# promsaint-cli: the alert forwarder

A shallow embedding of `cmd/promsaint-cli/main.go`.  The program parses its
flags, validates them, builds one alert record, serialises it and posts it to
the promsaint daemon.

Conventions of the embedding:

* Go strings are modelled as Lean strings, that is as sequences of Unicode
  code points (valid UTF-8 text).
* Everything `main` does to the outside world is recorded as a list of
  `Event`s, in program order, together with the way the process ends
  (`Outcome`).  A log event records the call made on the logger (level, the
  `args` field when the call goes through the custom `logger`, message); the
  level filter of the logging backend is not part of the model.
* What the operating system, the network and library tables give back is
  collected in `Env`: the result of opening the log file, of `url.Parse`, of
  `http.Post`, of the JSON encoder, `Duration.String`, the escaping helpers of
  `net/url` and the Unicode case table.
* The standard-library functions the program's behaviour hinges on are
  embedded as definitions: `fmt.Sprintf("%d", _)`, `regexp` matching for the
  pattern language used by `regex2xx`, `strings.ToLower`, `strings.Replace`,
  `path.Clean`, `path.Join` and `(*url.URL).String`.
-/

namespace Promsaint

/-! ## Data model -/

/-- Values of the command-line flags after `flag.Parse()` (main.go, lines 22-36),
with the defaults declared there. -/
structure Flags where
  hostAlert : Bool := false
  serviceAlert : Bool := false
  notify : String := "blackhole"
  notificationType : String := ""
  state : String := ""
  host : String := ""
  service : String := ""
  alertTypeOverride : String := ""
  alertName : String := ""
  message : String := ""
  note : String := ""
  promsaintUrl : String := "http://localhost:8080"
  logFile : String := ""
  versionFlag : Bool := false
  firePeriod : Int := 0
deriving DecidableEq

/-- The record `models.Alert` as `main` fills it in (main.go, lines 90-101).
The field `Type` of the source is called `Type_` here. -/
structure Alert where
  Type_ : String
  Notify : String
  NotificationType : String
  State : String
  Host : String
  Service : String
  AlertName : String
  Message : String
  Note : String
  FirePeriod : String
deriving DecidableEq

/-- Log levels of the logging backend that `main` uses. -/
inductive Level where
  | panic | fatal | error | warn | info | debug
deriving DecidableEq

/-- Observable actions of `main`.  In `log`, the second component is the value of
the `args` field: `some _` for calls on `logger`, `none` for calls on the
package-level logger. -/
inductive Event where
  | stdout (text : String)
  | setOutput (file : String)
  | log (level : Level) (args : Option String) (msg : String)
  | post (url : String) (contentType : String) (body : String)
deriving DecidableEq

/-- How the process ends: `main` returns, `os.Exit code` is called, or a panic
unwinds `main`. -/
inductive Outcome where
  | returned
  | exit (code : Nat)
  | panicked
deriving DecidableEq

/-- Exit status of the process seen by the caller: 0 when `main` returns, the
argument of `os.Exit`, and 2 for an unrecovered panic. -/
def Outcome.exitCode : Outcome → Nat
  | .returned => 0
  | .exit c => c
  | .panicked => 2

/-- The fields of `url.URL` that `(*URL).String` reads. `User` holds the rendered
user information when present. -/
structure URL where
  Scheme : String := ""
  Opaque : String := ""
  User : Option String := none
  Host : String := ""
  Path : String := ""
  RawPath : String := ""
  OmitHost : Bool := false
  ForceQuery : Bool := false
  RawQuery : String := ""
  Fragment : String := ""
  RawFragment : String := ""
deriving DecidableEq

/-- The fields of `http.Response` that `main` reads; `Body` is what
`ioutil.ReadAll(res.Body)` returns. -/
structure Response where
  StatusCode : Int
  Status : String
  Body : String
deriving DecidableEq

/-- Everything `main` obtains from outside the program. -/
structure Env where
  /-- Link-time variable `Version`. -/
  Version : String
  /-- Link-time variable `BuildTime`. -/
  BuildTime : String
  /-- The value of `strings.Join(os.Args, " ")`. -/
  args : String
  /-- Result of `os.OpenFile` on the log file. -/
  openFile : String → Except String Unit
  /-- Result of `json.NewEncoder(buff).Encode(alert)`: the bytes written, or the error. -/
  jsonEncode : Alert → Except String String
  /-- Result of `url.Parse`. -/
  urlParse : String → Except String URL
  /-- Result of `http.Post url contentType body`. -/
  httpPost : String → String → String → Except String Response
  /-- Rendering `time.Duration.String` of a duration given in nanoseconds. -/
  durationString : Int → String
  /-- Lower-case mapping of `unicode.CaseRanges`, used above the ASCII range. -/
  caseRanges : Char → Char
  /-- The helper `escape(_, encodeHost)` of `net/url`. -/
  escapeHost : String → String
  /-- The method `(*URL).EscapedPath`. -/
  escapedPath : URL → String
  /-- The method `(*URL).EscapedFragment`. -/
  escapedFragment : URL → String

/-- Result of running `main`: the events in program order, the way the process
ends, and the alert record when execution reached its construction. -/
structure Run where
  events : List Event
  outcome : Outcome
  alert : Option Alert
deriving DecidableEq

/-! ## Library functions used by `main` -/

/-- Decimal digit `d` (for `d < 10`) as a character. -/
def digitChar (d : Nat) : Char := Char.ofNat (48 + d)

/-- Decimal digits of `n`, least significant first; `fuel` bounds the number of
digits produced. -/
def digitsRev : Nat → Nat → List Char
  | 0, _ => []
  | fuel + 1, n =>
    if n < 10 then [digitChar n] else digitChar (n % 10) :: digitsRev fuel (n / 10)

/-- Decimal rendering of a natural number; `n + 1` digits always suffice. -/
def formatNat (n : Nat) : List Char := (digitsRev (n + 1) n).reverse

/-- The verb `%d` of `fmt.Sprintf` applied to an `int`. -/
def sprintfD (i : Int) : List Char :=
  if i < 0 then '-' :: formatNat i.natAbs else formatNat i.natAbs

/-- The pattern elements that occur in `regex2xx`: the anchor `^` (beginning of
text, no multi-line flag), a literal character, and `.` (no `s` flag: any
character but a newline). -/
inductive Re where
  | beginText
  | lit (c : Char)
  | anyNotNL
deriving DecidableEq

/-- Whether the concatenation `prog` matches a prefix of `input`; `atStart` tells
whether `input` begins at the beginning of the text. -/
def matchHere : List Re → Bool → List Char → Bool
  | [], _, _ => true
  | Re.beginText :: p, atStart, input => atStart && matchHere p atStart input
  | Re.lit c :: p, _, d :: t => (d == c) && matchHere p false t
  | Re.lit _ :: _, _, [] => false
  | Re.anyNotNL :: p, _, d :: t => (d != '\n') && matchHere p false t
  | Re.anyNotNL :: _, _, [] => false

/-- Unanchored search: whether `prog` matches at some position of the text. -/
def searchFrom (prog : List Re) : Bool → List Char → Bool
  | atStart, [] => matchHere prog atStart []
  | atStart, d :: t => matchHere prog atStart (d :: t) || searchFrom prog false t

/-- The method `(*Regexp).Match`: the text contains a match of the pattern. -/
def reMatch (prog : List Re) (text : List Char) : Bool := searchFrom prog true text

/-- The compiled pattern of main.go line 37, written in source as the raw string ^2.. -/
def regex2xx : List Re := [Re.beginText, Re.lit '2', Re.anyNotNL, Re.anyNotNL]

/-- The function `unicode.ToLower`: ASCII is handled directly, the rest goes
through the case table. -/
def unicodeToLower (env : Env) (r : Char) : Char :=
  if r.toNat ≤ 127 then
    if 'A'.toNat ≤ r.toNat ∧ r.toNat ≤ 'Z'.toNat then Char.ofNat (r.toNat + ('a'.toNat - 'A'.toNat)) else r
  else env.caseRanges r

/-- The function `strings.ToLower`, which is `strings.Map(unicode.ToLower, s)`. -/
def stringsToLower (env : Env) (s : String) : String :=
  String.mk (s.data.map (unicodeToLower env))

/-- Left-to-right scan of `strings.Replace(s, old, new, -1)` for a non-empty `old`:
every non-overlapping occurrence of `old` is replaced. `fuel` bounds the number
of scan steps. -/
def replaceScan (old new : List Char) : Nat → List Char → List Char
  | 0, s => s
  | fuel + 1, s =>
    if old.isPrefixOf s then new ++ replaceScan old new fuel (s.drop old.length)
    else
      match s with
      | [] => []
      | c :: t => c :: replaceScan old new fuel t

/-- The call `strings.Replace(s, old, new, -1)` with a non-empty `old`; it returns
`s` itself when `old` and `new` coincide. -/
def stringsReplaceAll (s old new : String) : String :=
  if old = new then s else String.mk (replaceScan old.data new.data s.data.length s.data)

/-- One pass of the `..` case of `path.Clean` when backtracking is possible: starting
from write index `w` (already decremented once), move left while `w > dotdot` and
the byte at index `w` is not a slash. -/
def backtrack (out : List Char) (dotdot : Nat) : Nat → Nat
  | 0 => 0
  | w + 1 =>
    if dotdot < w + 1 ∧ out.getD (w + 1) '/' ≠ '/' then backtrack out dotdot w else w + 1

/-- Loop state of `path.Clean`: the unread part of the path (`path[r:]`), the
bytes written so far (`out`, whose length is `out.w`), and `dotdot`. -/
structure CleanState where
  rest : List Char
  out : List Char
  dotdot : Nat
deriving DecidableEq

/-- The step "add slash if needed" of `path.Clean` before a real path element is
copied: a slash is appended unless the buffer is the root alone (rooted) or
empty (not rooted). -/
def addSlash (rooted : Bool) (out : List Char) : List Char :=
  if (rooted = true ∧ out.length ≠ 1) ∨ (rooted = false ∧ out.length ≠ 0) then out ++ ['/']
  else out

/-- One iteration of the loop `for r < n` of `path.Clean`, on a state whose unread
part is `c :: t`. -/
def cleanStep (rooted : Bool) (c : Char) (t : List Char) (out : List Char) (dotdot : Nat) :
    CleanState :=
  if c = '/' then
    -- empty path element
    { rest := t, out := out, dotdot := dotdot }
  else if c = '.' ∧ (t = [] ∨ t.head? = some '/') then
    -- . element
    { rest := t, out := out, dotdot := dotdot }
  else if c = '.' ∧ t.head? = some '.' ∧ (t.tail = [] ∨ t.tail.head? = some '/') then
    -- .. element: remove to last /
    if dotdot < out.length then
      { rest := t.tail, out := out.take (backtrack out dotdot (out.length - 1)), dotdot := dotdot }
    else if rooted = false then
      let out1 := (if 0 < out.length then out ++ ['/'] else out) ++ ['.', '.']
      { rest := t.tail, out := out1, dotdot := out1.length }
    else
      { rest := t.tail, out := out, dotdot := dotdot }
  else
    -- real path element: add slash if needed, copy element
    { rest := (c :: t).dropWhile (fun x => x != '/'),
      out := addSlash rooted out ++ (c :: t).takeWhile (fun x => x != '/'),
      dotdot := dotdot }

/-- The loop `for r < n` of `path.Clean`; every iteration reads at least one byte,
so a `fuel` of the number of unread bytes is enough (`cleanLoop_fuel`). -/
def cleanLoop (rooted : Bool) : Nat → CleanState → List Char
  | 0, s => s.out
  | fuel + 1, s =>
    match s.rest with
    | [] => s.out
    | c :: t => cleanLoop rooted fuel (cleanStep rooted c t s.out s.dotdot)

/-- The function `path.Clean` on the characters of a path. -/
def cleanChars (path : List Char) : List Char :=
  if path = [] then ['.']
  else
    let rooted : Bool := path.head? = some '/'
    let init : CleanState :=
      if rooted then { rest := path.drop 1, out := ['/'], dotdot := 1 }
      else { rest := path, out := [], dotdot := 0 }
    let out := cleanLoop rooted path.length init
    if out.length = 0 then ['.'] else out

/-- The function `path.Clean`. -/
def pathClean (path : String) : String := String.mk (cleanChars path.data)

/-- The function `path.Join`: leading empty elements are skipped, the remaining
elements are joined with slashes and the result is cleaned; the result is empty
when every element is. -/
def pathJoin (elem : List String) : String :=
  match elem.dropWhile (fun e => e = "") with
  | [] => ""
  | l => pathClean ("/".intercalate l)

/-- The method `String` of `*url.URL`. -/
def urlString (env : Env) (u : URL) : String :=
  let buf0 : String := if u.Scheme ≠ "" then u.Scheme ++ ":" else ""
  let buf1 : String :=
    if u.Opaque ≠ "" then buf0 ++ u.Opaque
    else
      let buf2 : String :=
        if u.Scheme ≠ "" ∨ u.Host ≠ "" ∨ u.User ≠ none then
          if u.OmitHost = true ∧ u.Host = "" ∧ u.User = none then buf0
          else
            let b1 : String :=
              if u.Host ≠ "" ∨ u.Path ≠ "" ∨ u.User ≠ none then buf0 ++ "//" else buf0
            let b2 : String :=
              match u.User with
              | some ui => b1 ++ ui ++ "@"
              | none => b1
            if u.Host ≠ "" then b2 ++ env.escapeHost u.Host else b2
        else buf0
      let path := env.escapedPath u
      let buf3 : String :=
        if path ≠ "" ∧ path.data.head? ≠ some '/' ∧ u.Host ≠ "" then buf2 ++ "/" else buf2
      let buf4 : String :=
        if buf3 = "" ∧ ':' ∈ path.data.takeWhile (fun x => x != '/') then buf3 ++ "./" else buf3
      buf4 ++ path
  let buf5 : String :=
    if u.ForceQuery = true ∨ u.RawQuery ≠ "" then buf1 ++ "?" ++ u.RawQuery else buf1
  if u.Fragment ≠ "" then buf5 ++ "#" ++ env.escapedFragment u else buf5

/-! ## The program -/

/-- Message of the first validation failure (main.go line 68). -/
def msgNoneSet : String := "One of -hostalert or -servicealert or -alert-type must be set"

/-- Message of the warning (main.go line 72). -/
def msgIgnored : String :=
  "If one of -hostalert or -servicealert is set, -alert-type is ignored"

/-- Message of the second validation failure (main.go line 76). -/
def msgNameNeeded : String := "When -alert-type is set, -alert-name needs to be set as well"

/-- Message of the third validation failure (main.go line 80). -/
def msgBothSet : String := "Only one of -hostalert or -servicealert can be set"

/-- Log-file setup (main.go lines 51-59): the events on success, the error on failure. -/
def openLog (env : Env) (f : Flags) : Except String (List Event) :=
  if f.logFile ≠ "" then
    match env.openFile f.logFile with
    | .error e => .error e
    | .ok _ => .ok [Event.setOutput f.logFile]
  else .ok []

/-- Flag validation (main.go lines 66-81). `logger.Fatal` logs and then calls
`os.Exit(1)`, so the statements after it are not executed. The result is the
list of log calls made and, when a check fails, the outcome of the process. -/
def validateFlags (args : String) (f : Flags) : List Event × Option Outcome :=
  if f.hostAlert = false ∧ f.serviceAlert = false ∧ f.alertTypeOverride = "" then
    ([Event.log .fatal (some args) msgNoneSet], some (.exit 1))
  else
    let warn : List Event :=
      if (f.hostAlert = true ∨ f.serviceAlert = true) ∧ f.alertTypeOverride ≠ "" then
        [Event.log .warn (some args) msgIgnored]
      else []
    if f.alertTypeOverride ≠ "" ∧ f.alertName = "" then
      (warn ++ [Event.log .fatal (some args) msgNameNeeded], some (.exit 1))
    else if f.hostAlert = true ∧ f.serviceAlert = true then
      (warn ++ [Event.log .fatal (some args) msgBothSet], some (.exit 1))
    else (warn, none)

/-- Selection of the alert type (main.go lines 83-88). -/
def alertType (f : Flags) : String :=
  if f.hostAlert = true then "host"
  else if f.serviceAlert = true then "service"
  else f.alertTypeOverride

/-- Construction of the alert record (main.go lines 90-101). -/
def buildAlert (env : Env) (f : Flags) : Alert :=
  { Type_ := alertType f
    Notify := stringsToLower env f.notify
    NotificationType := f.notificationType
    State := f.state
    Host := f.host
    Service := stringsReplaceAll f.service " " "_"
    AlertName := f.alertName
    Message := f.message
    Note := f.note
    FirePeriod := env.durationString f.firePeriod }

/-- The URL the record is posted to (main.go lines 115-116). -/
def targetURL (env : Env) (u : URL) : String :=
  urlString env { u with Path := pathJoin [u.Path, "json"] }

/-- Message of the error entry for a response that is not 2xx (main.go line 125). -/
def msgNon2xx (res : Response) : String :=
  "Promsaint responded with non 2xx error: " ++ res.Status

/-- Serialisation, delivery and response handling (main.go lines 103-128). -/
def deliver (env : Env) (f : Flags) (alert : Alert) : List Event × Outcome :=
  match env.jsonEncode alert with
  | .error e => ([Event.log .panic none e], .panicked)
  | .ok buff =>
    let ev : List Event := [Event.log .info (some env.args) "Forwarding to Promsaint"]
    match env.urlParse f.promsaintUrl with
    | .error e => (ev ++ [Event.log .fatal none e], .exit 1)
    | .ok u =>
      let target := targetURL env u
      let ev1 := ev ++ [Event.post target "application/json" buff]
      match env.httpPost target "application/json" buff with
      | .error e => (ev1 ++ [Event.log .panic none e], .panicked)
      | .ok res =>
        let status := sprintfD res.StatusCode
        let ev2 := ev1 ++ [Event.log .debug (some env.args) ("Status: " ++ String.mk status)]
        if reMatch regex2xx status = false then
          (ev2 ++ [Event.log .error (some env.args) (msgNon2xx res),
                   Event.log .debug (some env.args) ("Promsaint response:" ++ res.Body)],
            .returned)
        else (ev2, .returned)

/-- The function `main` (main.go lines 42-129), after `flag.Parse()`. -/
def main (env : Env) (f : Flags) : Run :=
  if f.versionFlag = true then
    { events := [Event.stdout ("Version: " ++ env.Version ++ "\n"),
                 Event.stdout ("Built:   " ++ env.BuildTime ++ "\n")],
      outcome := .exit 0,
      alert := none }
  else
    match openLog env f with
    | .error e => { events := [Event.log .panic none e], outcome := .panicked, alert := none }
    | .ok ev0 =>
      match validateFlags env.args f with
      | (ev1, some o) => { events := ev0 ++ ev1, outcome := o, alert := none }
      | (ev1, none) =>
        let alert := buildAlert env f
        let d := deliver env f alert
        { events := ev0 ++ ev1 ++ d.1, outcome := d.2, alert := some alert }

/-! ## Concrete inputs used in examples -/

/-- An environment in which the log file opens, the daemon URL parses to its
scheme, host and path, and the daemon answers every request with `res`. -/
def envWith (parsed : URL) (res : Response) : Env :=
  { Version := "1.0"
    BuildTime := "today"
    args := "promsaint-cli"
    openFile := fun _ => .ok ()
    jsonEncode := fun a => .ok a.Service
    urlParse := fun _ => .ok parsed
    httpPost := fun _ _ _ => .ok res
    durationString := fun _ => "0s"
    caseRanges := fun c => c
    escapeHost := fun h => h
    escapedPath := fun u => u.Path
    escapedFragment := fun u => u.Fragment }

/-- The parse of the default daemon URL `http://localhost:8080`. -/
def defaultURL : URL := { Scheme := "http", Host := "localhost:8080" }

/-- A response with status 200. -/
def res200 : Response := { StatusCode := 200, Status := "200 OK", Body := "" }

/-- A response with status 500. -/
def res500 : Response :=
  { StatusCode := 500, Status := "500 Internal Server Error", Body := "oops" }

/-- The environment of the examples: daemon at the default URL answering 200. -/
def env0 : Env := envWith defaultURL res200

/-- An environment in which the log file cannot be opened. -/
def envNoLog : Env := { env0 with openFile := fun _ => .error "permission denied" }

/-! ## Predicates used in the statements -/

/-- The three violations of the flag rules: nothing selects the type, both
`-hostalert` and `-servicealert` are set, or `-alert-type` comes without
`-alert-name`. -/
def Violated (f : Flags) : Prop :=
  (f.hostAlert = false ∧ f.serviceAlert = false ∧ f.alertTypeOverride = "") ∨
  (f.hostAlert = true ∧ f.serviceAlert = true) ∨
  (f.alertTypeOverride ≠ "" ∧ f.alertName = "")

instance (f : Flags) : Decidable (Violated f) := by
  unfold Violated; infer_instance

/-- Execution gets as far as flag validation: `-version` is not set and the log
file, when one is asked for, could be opened. -/
def ReachesValidation (env : Env) (f : Flags) : Prop :=
  f.versionFlag = false ∧ (f.logFile = "" ∨ env.openFile f.logFile = .ok ())

/-- Execution gets as far as receiving the response `res` from the daemon: it
reaches validation, the flags pass it, the record is encoded, the daemon URL
parses, and the POST to the target URL is answered by `res`. -/
def Receives (env : Env) (f : Flags) (res : Response) : Prop :=
  ReachesValidation env f ∧ ¬ Violated f ∧
  ∃ buff u, env.jsonEncode (buildAlert env f) = .ok buff ∧
    env.urlParse f.promsaintUrl = .ok u ∧
    env.httpPost (targetURL env u) "application/json" buff = .ok res

/-- A fatal entry written by flag validation. -/
def isValidationFatal : Event → Bool
  | Event.log Level.fatal (some _) m =>
    decide (m = msgNoneSet ∨ m = msgNameNeeded ∨ m = msgBothSet)
  | _ => false

/-- An entry of level error. -/
def isError : Event → Bool
  | Event.log Level.error _ _ => true
  | _ => false

/-- Two adjacent characters are not both slashes. -/
def NotBothSlash (a b : Char) : Prop := a ≠ '/' ∨ b ≠ '/'

/-- Invariant of the loop of `path.Clean`: a rooted buffer keeps its leading
slash and has `dotdot = 1`; `dotdot` is within the buffer; the buffer has no two
adjacent slashes; it ends in a slash only when it is the root alone; and the
same holds for its first `dotdot` bytes. -/
def CleanInv (rooted : Bool) (out : List Char) (dotdot : Nat) : Prop :=
  (rooted = true → dotdot = 1 ∧ out.head? = some '/') ∧
  dotdot ≤ out.length ∧
  List.Chain' NotBothSlash out ∧
  (out.getLast? = some '/' → rooted = true ∧ out = ['/']) ∧
  ((out.take dotdot).getLast? = some '/' → rooted = true ∧ dotdot = 1)

/-- The characters of the suffix that joining with the element "json" adds. -/
def slashJson : List Char := ['/', 'j', 's', 'o', 'n']

/-! ## Lemmas about the program -/

theorem openLog_of_reaches (env : Env) (f : Flags) (h : ReachesValidation env f) :
    openLog env f = .ok (if f.logFile ≠ "" then [Event.setOutput f.logFile] else []) := by
  obtain ⟨_, h | h⟩ := h
  · simp [openLog, h]
  · by_cases hl : f.logFile = ""
    · simp [openLog, hl]
    · simp [openLog, hl, h]

theorem validateFlags_none_iff (args : String) (f : Flags) :
    (validateFlags args f).2 = none ↔ ¬ Violated f := by
  unfold validateFlags Violated
  cases f.hostAlert <;> cases f.serviceAlert <;>
    by_cases h1 : f.alertTypeOverride = "" <;> by_cases h2 : f.alertName = "" <;>
    simp [h1, h2]

theorem validateFlags_exit (args : String) (f : Flags) (o : Outcome)
    (h : (validateFlags args f).2 = some o) : o = .exit 1 := by
  unfold validateFlags at h
  cases hh : f.hostAlert <;> cases hs : f.serviceAlert <;>
    by_cases h1 : f.alertTypeOverride = "" <;> by_cases h2 : f.alertName = "" <;>
    simp [hh, hs, h1, h2] at h <;> exact h.symm

theorem validateFlags_fatal_count (args : String) (f : Flags) :
    (Violated f → ((validateFlags args f).1.filter isValidationFatal).length = 1) ∧
    (¬ Violated f → (validateFlags args f).1.filter isValidationFatal = []) := by
  unfold validateFlags Violated
  cases hh : f.hostAlert <;> cases hs : f.serviceAlert <;>
    by_cases h1 : f.alertTypeOverride = "" <;> by_cases h2 : f.alertName = "" <;>
    simp [h1, h2, isValidationFatal]

theorem deliver_no_validation_fatal (env : Env) (f : Flags) (a : Alert) :
    (deliver env f a).1.filter isValidationFatal = [] := by
  unfold deliver
  split
  · simp [isValidationFatal]
  · split
    · simp [isValidationFatal]
    · dsimp only
      split
      · simp [isValidationFatal]
      · split <;> simp [isValidationFatal]

theorem main_of_violated (env : Env) (f : Flags) (h : ReachesValidation env f)
    (hv : Violated f) :
    main env f =
      { events := (if f.logFile ≠ "" then [Event.setOutput f.logFile] else []) ++
          (validateFlags env.args f).1,
        outcome := .exit 1, alert := none } := by
  have hne : (validateFlags env.args f).2 ≠ none := fun hn =>
    (validateFlags_none_iff env.args f).1 hn hv
  obtain ⟨o, ho⟩ := Option.ne_none_iff_exists'.1 hne
  have ho1 := validateFlags_exit env.args f o ho
  subst ho1
  unfold main
  rw [openLog_of_reaches env f h]
  rcases hvf : validateFlags env.args f with ⟨ev1, o⟩
  rw [hvf] at ho
  simp only at ho
  subst ho
  simp [h.1]

theorem main_of_valid (env : Env) (f : Flags) (h : ReachesValidation env f)
    (hv : ¬ Violated f) :
    main env f =
      { events := (if f.logFile ≠ "" then [Event.setOutput f.logFile] else []) ++
          (validateFlags env.args f).1 ++ (deliver env f (buildAlert env f)).1,
        outcome := (deliver env f (buildAlert env f)).2,
        alert := some (buildAlert env f) } := by
  have ho := (validateFlags_none_iff env.args f).2 hv
  unfold main
  rw [openLog_of_reaches env f h]
  rcases hvf : validateFlags env.args f with ⟨ev1, o⟩
  rw [hvf] at ho
  simp only at ho
  subst ho
  simp [h.1]

theorem deliver_of_response (env : Env) (f : Flags) (a : Alert) (buff : String) (u : URL)
    (res : Response) (hj : env.jsonEncode a = .ok buff)
    (hu : env.urlParse f.promsaintUrl = .ok u)
    (hp : env.httpPost (targetURL env u) "application/json" buff = .ok res) :
    deliver env f a =
      ([Event.log .info (some env.args) "Forwarding to Promsaint",
        Event.post (targetURL env u) "application/json" buff,
        Event.log .debug (some env.args) ("Status: " ++ String.mk (sprintfD res.StatusCode))] ++
        (if reMatch regex2xx (sprintfD res.StatusCode) = false then
          [Event.log .error (some env.args) (msgNon2xx res),
           Event.log .debug (some env.args) ("Promsaint response:" ++ res.Body)]
         else []),
       .returned) := by
  unfold deliver
  simp only [hj, hu, hp]
  split <;> simp

/-! ## Lemmas about the library functions -/

theorem digitChar_ne_newline (d : Nat) (h : d < 10) : digitChar d ≠ '\n' := by
  interval_cases d <;> decide

theorem digitChar_eq_two (d : Nat) (h : d < 10) : digitChar d = '2' ↔ d = 2 := by
  interval_cases d <;> decide

theorem digitsRev_eq_digits (fuel n : Nat) (hf : n < fuel) (hn : 0 < n) :
    digitsRev fuel n = (Nat.digits 10 n).map digitChar := by
  induction fuel generalizing n with
  | zero => omega
  | succ k ih =>
    unfold digitsRev
    by_cases hlt : n < 10
    · simp [hlt, Nat.digits_of_lt 10 n (by omega) hlt]
    · have hdiv : 0 < n / 10 := Nat.div_pos (by omega) (by omega)
      have hlt2 : n / 10 < k := by
        have : n / 10 < n := Nat.div_lt_self hn (by omega)
        omega
      rw [if_neg hlt, ih (n / 10) hlt2 hdiv]
      rw [Nat.digits_def' (by omega : 1 < 10) hn]
      simp

theorem formatNat_eq_digits (n : Nat) (hn : 0 < n) :
    formatNat n = ((Nat.digits 10 n).map digitChar).reverse := by
  unfold formatNat
  rw [digitsRev_eq_digits (n + 1) n (by omega) hn]

theorem digitsRev_no_newline (fuel n : Nat) : ∀ c ∈ digitsRev fuel n, c ≠ '\n' := by
  induction fuel generalizing n with
  | zero => simp [digitsRev]
  | succ k ih =>
    unfold digitsRev
    by_cases hlt : n < 10
    · simp only [if_pos hlt, List.mem_singleton]
      rintro c rfl
      exact digitChar_ne_newline n hlt
    · simp only [if_neg hlt, List.mem_cons]
      rintro c (rfl | hc)
      · exact digitChar_ne_newline _ (Nat.mod_lt _ (by omega))
      · exact ih _ c hc

theorem formatNat_no_newline (n : Nat) : ∀ c ∈ formatNat n, c ≠ '\n' := by
  intro c hc
  unfold formatNat at hc
  exact digitsRev_no_newline _ _ c (List.mem_reverse.1 hc)

theorem formatNat_three_digits (n : Nat) (hlo : 100 ≤ n) (hhi : n ≤ 999) :
    formatNat n = [digitChar (n / 100), digitChar (n / 10 % 10), digitChar (n % 10)] := by
  unfold formatNat
  rw [show n + 1 = (n - 2) + 1 + 1 + 1 from by omega]
  have h1 : ¬ n < 10 := by omega
  have h2 : ¬ n / 10 < 10 := by omega
  have h3 : n / 10 / 10 < 10 := by omega
  have h4 : n / 10 / 10 = n / 100 := by omega
  have h5 : n / 100 < 10 := by omega
  simp [digitsRev, h1, h2, h4, h5]

theorem sprintfD_natCast (n : Nat) : sprintfD (n : Int) = formatNat n := by
  unfold sprintfD
  have : ¬ ((n : Int) < 0) := by omega
  simp [this]

theorem searchFrom_regex2xx_false (t : List Char) : searchFrom regex2xx false t = false := by
  induction t with
  | nil => simp [searchFrom, regex2xx, matchHere]
  | cons d t ih =>
    rw [searchFrom, ih]
    simp [regex2xx, matchHere]

theorem reMatch_regex2xx_iff (s : List Char) :
    reMatch regex2xx s = true ↔
      ∃ a b rest, s = '2' :: a :: b :: rest ∧ a ≠ '\n' ∧ b ≠ '\n' := by
  unfold reMatch
  match s with
  | [] => simp [searchFrom, regex2xx, matchHere]
  | [d] => simp [searchFrom, regex2xx, matchHere]
  | [d, a] => simp [searchFrom, regex2xx, matchHere]
  | d :: a :: b :: rest =>
    have hs := searchFrom_regex2xx_false (a :: b :: rest)
    rw [searchFrom, hs]
    simp only [regex2xx, matchHere, Bool.true_and, Bool.and_true, Bool.or_false,
      Bool.and_eq_true, beq_iff_eq, bne_iff_ne, ne_eq]
    constructor
    · rintro ⟨rfl, ha, hb⟩
      exact ⟨a, b, rest, rfl, ha, hb⟩
    · rintro ⟨a1, b1, r1, heq, ha, hb⟩
      simp only [List.cons.injEq] at heq
      obtain ⟨rfl, rfl, rfl, rfl⟩ := heq
      exact ⟨rfl, ha, hb⟩

theorem replaceScan_space (fuel : Nat) (s : List Char) (h : s.length ≤ fuel) :
    replaceScan [' '] ['_'] fuel s = s.map (fun c => if c = ' ' then '_' else c) := by
  induction fuel generalizing s with
  | zero =>
    have : s = [] := List.length_eq_zero.1 (by omega)
    subst this
    simp [replaceScan]
  | succ k ih =>
    match s with
    | [] => simp [replaceScan]
    | c :: t =>
      have ht : t.length ≤ k := by simpa using h
      by_cases hc : c = ' '
      · subst hc
        simp [replaceScan, ih t ht]
      · have hc2 : ¬ ' ' = c := fun h => hc h.symm
        simp [replaceScan, hc, hc2, ih t ht]

theorem stringsReplaceAll_space (s : String) :
    (stringsReplaceAll s " " "_").data = s.data.map (fun c => if c = ' ' then '_' else c) := by
  unfold stringsReplaceAll
  rw [if_neg (by decide)]
  exact replaceScan_space _ _ (le_refl _)

theorem unicodeToLower_ascii (env : Env) (c : Char) (h : c.toNat ≤ 127) :
    unicodeToLower env c = c.toLower := by
  unfold unicodeToLower Char.toLower
  rw [if_pos h]
  rfl

/-! ## Lemmas about `path.Clean` -/

theorem backtrack_le (out : List Char) (dotdot w : Nat) : backtrack out dotdot w ≤ w := by
  induction w with
  | zero => simp [backtrack]
  | succ k ih =>
    unfold backtrack
    split
    · omega
    · exact le_refl _

theorem backtrack_ge (out : List Char) (dotdot w : Nat) (h : dotdot ≤ w) :
    dotdot ≤ backtrack out dotdot w := by
  induction w with
  | zero => simpa [backtrack] using h
  | succ k ih =>
    unfold backtrack
    split
    · rename_i hc
      exact ih (by omega)
    · exact h

theorem backtrack_stop (out : List Char) (dotdot w : Nat) (h : dotdot ≤ w) :
    backtrack out dotdot w = dotdot ∨ out.getD (backtrack out dotdot w) '/' = '/' := by
  induction w with
  | zero =>
    left
    simp only [backtrack]
    omega
  | succ k ih =>
    unfold backtrack
    split
    · rename_i hc
      exact ih (by omega)
    · rename_i hc
      by_cases hd : dotdot < k + 1
      · right
        by_contra hne
        exact hc ⟨hd, hne⟩
      · left
        omega

theorem chain_of_no_slash (l : List Char) (h : ∀ x ∈ l, x ≠ '/') :
    List.Chain' NotBothSlash l := by
  induction l with
  | nil => exact List.chain'_nil
  | cons a t ih =>
    match t, ih, h with
    | [], _, _ => exact List.chain'_singleton a
    | b :: t', ih, h =>
      exact List.chain'_cons.2 ⟨Or.inl (h a (by simp)), ih (fun x hx => h x (by simp [hx]))⟩

theorem chain_append_of (l₁ l₂ : List Char) (h₁ : List.Chain' NotBothSlash l₁)
    (h₂ : List.Chain' NotBothSlash l₂)
    (h : l₁.getLast? ≠ some '/' ∨ l₂.head? ≠ some '/') :
    List.Chain' NotBothSlash (l₁ ++ l₂) := by
  refine List.chain'_append.2 ⟨h₁, h₂, ?_⟩
  intro x hx y hy
  unfold NotBothSlash
  by_contra hcon
  have hxy : x = '/' ∧ y = '/' := by
    constructor
    · by_contra hne
      exact hcon (Or.inl hne)
    · by_contra hne
      exact hcon (Or.inr hne)
  rw [hxy.1] at hx
  rw [hxy.2] at hy
  rcases h with h | h
  · exact h (Option.mem_def.1 hx)
  · exact h (Option.mem_def.1 hy)

theorem take_one_of_head (out : List Char) (h : out.head? = some '/') : out.take 1 = ['/'] := by
  match out, h with
  | a :: t, h =>
    simp only [List.head?_cons, Option.some.injEq] at h
    simp [h]

theorem cleanInv_backtrack (rooted : Bool) (out : List Char) (dotdot : Nat)
    (h : CleanInv rooted out dotdot) (hlt : dotdot < out.length) :
    CleanInv rooted (out.take (backtrack out dotdot (out.length - 1))) dotdot := by
  obtain ⟨h1, h2, h3, h4, h5⟩ := h
  have hle := backtrack_le out dotdot (out.length - 1)
  have hge := backtrack_ge out dotdot (out.length - 1) (by omega)
  have hstop := backtrack_stop out dotdot (out.length - 1) (by omega)
  generalize backtrack out dotdot (out.length - 1) = w at hle hge hstop
  have hmin : min dotdot w = dotdot := Nat.min_eq_left hge
  refine ⟨?_, ?_, h3.take w, ?_, ?_⟩
  · intro hr
    obtain ⟨hd, hh⟩ := h1 hr
    refine ⟨hd, ?_⟩
    rw [List.head?_take, if_neg (by omega)]
    exact hh
  · rw [List.length_take]
    omega
  · intro hlast
    rcases hstop with hw | hw
    · subst hw
      obtain ⟨hr, hd⟩ := h5 hlast
      refine ⟨hr, ?_⟩
      rw [hd]
      exact take_one_of_head out (h1 hr).2
    · exfalso
      have hwlt : w < out.length := by omega
      rw [List.getD_eq_getElem out '/' hwlt] at hw
      have hsplit : out = out.take w ++ out[w] :: out.drop (w + 1) := by
        rw [← List.drop_eq_getElem_cons hwlt, List.take_append_drop]
      rw [hsplit] at h3
      have hR := (List.chain'_append.1 h3).2.2 '/' (Option.mem_def.2 hlast) out[w]
        (by simp)
      rw [hw] at hR
      rcases hR with hR | hR <;> exact hR rfl
  · rw [List.take_take, hmin]
    exact h5

theorem cleanInv_dotdot (out : List Char) (dotdot : Nat) (h : CleanInv false out dotdot) :
    CleanInv false ((if 0 < out.length then out ++ ['/'] else out) ++ ['.', '.'])
      ((if 0 < out.length then out ++ ['/'] else out) ++ ['.', '.']).length := by
  obtain ⟨_, _, h3, h4, _⟩ := h
  have hlast : ((if 0 < out.length then out ++ ['/'] else out) ++ ['.', '.']).getLast?
      = some '.' := by
    simp
  have hns : out.getLast? ≠ some '/' := fun hl => by
    have := (h4 hl).1
    exact Bool.noConfusion this
  have hdots : List.Chain' NotBothSlash ['.', '.'] :=
    chain_of_no_slash _ (by decide)
  refine ⟨fun hr => Bool.noConfusion hr, le_refl _, ?_, ?_, ?_⟩
  · by_cases hpos : 0 < out.length
    · rw [if_pos hpos]
      exact chain_append_of _ _
        (chain_append_of _ _ h3 (List.chain'_singleton _) (Or.inl hns)) hdots
        (Or.inr (by decide))
    · rw [if_neg hpos]
      exact chain_append_of _ _ h3 hdots (Or.inr (by decide))
  · rw [hlast]
    intro hcon
    exact absurd (Option.some.inj hcon) (by decide)
  · rw [List.take_length, hlast]
    intro hcon
    exact absurd (Option.some.inj hcon) (by decide)

theorem cleanInv_element (rooted : Bool) (out : List Char) (dotdot : Nat) (elem : List Char)
    (h : CleanInv rooted out dotdot) (hne : elem ≠ []) (hel : ∀ x ∈ elem, x ≠ '/') :
    CleanInv rooted (addSlash rooted out ++ elem) dotdot := by
  unfold addSlash
  obtain ⟨h1, h2, h3, h4, h5⟩ := h
  have hhead : elem.head? ≠ some '/' := by
    match elem, hne, hel with
    | a :: t, _, hel =>
      intro hcon
      simp only [List.head?_cons, Option.some.injEq] at hcon
      exact hel a (by simp) hcon
  have hlastE : ∀ pre : List Char, (pre ++ elem).getLast? ≠ some '/' := by
    intro pre hcon
    rw [List.getLast?_append_of_ne_nil pre hne] at hcon
    exact hel '/' (List.mem_of_getLast?_eq_some hcon) rfl
  have hsep : ((rooted = true ∧ out.length ≠ 1) ∨ (rooted = false ∧ out.length ≠ 0)) →
      out.getLast? ≠ some '/' := by
    intro hc hl
    obtain ⟨hr, ho⟩ := h4 hl
    rcases hc with ⟨_, hlen⟩ | ⟨hrf, _⟩
    · exact hlen (by rw [ho]; rfl)
    · rw [hr] at hrf
      exact Bool.noConfusion hrf
  have hlen : out.length ≤
      (if (rooted = true ∧ out.length ≠ 1) ∨ (rooted = false ∧ out.length ≠ 0)
        then out ++ ['/'] else out).length := by
    split <;> simp
  refine ⟨?_, ?_, ?_, ?_, ?_⟩
  · intro hr
    obtain ⟨hd, hh⟩ := h1 hr
    refine ⟨hd, ?_⟩
    match out, hh with
    | a :: t, hh =>
      simp only [List.head?_cons, Option.some.injEq] at hh
      subst hh
      split <;> simp
  · rw [List.length_append]
    omega
  · refine chain_append_of _ _ ?_ (chain_of_no_slash elem hel) (Or.inr hhead)
    split
    · rename_i hc
      exact chain_append_of _ _ h3 (List.chain'_singleton _) (Or.inl (hsep hc))
    · exact h3
  · intro hcon
    exact absurd hcon (hlastE _)
  · rw [List.take_append_of_le_length (by omega)]
    split
    · rw [List.take_append_of_le_length h2]
      exact h5
    · exact h5

theorem cleanStep_inv (rooted : Bool) (c : Char) (t out : List Char) (dotdot : Nat)
    (h : CleanInv rooted out dotdot) :
    CleanInv rooted (cleanStep rooted c t out dotdot).out
      (cleanStep rooted c t out dotdot).dotdot := by
  unfold cleanStep
  by_cases hc1 : c = '/'
  · rw [if_pos hc1]
    exact h
  · rw [if_neg hc1]
    split
    · exact h
    · split
      · split
        · rename_i hlt
          exact cleanInv_backtrack rooted out dotdot h hlt
        · split
          · rename_i hr
            subst hr
            exact cleanInv_dotdot out dotdot h
          · exact h
      · refine cleanInv_element rooted out dotdot _ h ?_ ?_
        · simp [List.takeWhile_cons, hc1]
        · intro x hx
          have := List.mem_takeWhile_imp hx
          simpa using this

theorem cleanLoop_inv (rooted : Bool) (fuel : Nat) (s : CleanState)
    (h : CleanInv rooted s.out s.dotdot) :
    ∃ d, CleanInv rooted (cleanLoop rooted fuel s) d := by
  induction fuel generalizing s with
  | zero => exact ⟨s.dotdot, h⟩
  | succ k ih =>
    unfold cleanLoop
    split
    · exact ⟨s.dotdot, h⟩
    · rename_i c t _
      exact ih _ (cleanStep_inv rooted c t s.out s.dotdot h)

theorem addSlash_last (rooted : Bool) (out : List Char) (dotdot : Nat)
    (h : CleanInv rooted out dotdot) :
    addSlash rooted out = [] ∨ (addSlash rooted out).getLast? = some '/' := by
  unfold addSlash
  split
  · right
    simp
  · rename_i hc
    cases hr : rooted
    · left
      have : out.length = 0 := by
        by_contra hne
        exact hc (Or.inr ⟨hr, hne⟩)
      exact List.length_eq_zero.1 this
    · right
      have hlen : out.length = 1 := by
        by_contra hne
        exact hc (Or.inl ⟨hr, hne⟩)
      have hh := (h.1 hr).2
      match out, hlen, hh with
      | [a], _, hh =>
        simp only [List.head?_cons, Option.some.injEq] at hh
        simp [hh]

theorem dropWhile_append_slashJson (l : List Char) :
    (l ++ slashJson).dropWhile (fun x => x != '/') =
      l.dropWhile (fun x => x != '/') ++ slashJson := by
  induction l with
  | nil => decide
  | cons a t ih =>
    by_cases ha : a = '/'
    · simp [List.dropWhile_cons, ha]
    · simp [List.dropWhile_cons, ha, ih]

theorem length_dropWhile_le_self (l : List Char) (p : Char → Bool) :
    (l.dropWhile p).length ≤ l.length := by
  induction l with
  | nil => simp
  | cons a t ih =>
    rw [List.dropWhile_cons]
    split
    · simp only [List.length_cons]
      omega
    · exact le_refl _

theorem cleanStep_rest (rooted : Bool) (c : Char) (q out : List Char) (dotdot : Nat) :
    ∃ q', (cleanStep rooted c (q ++ slashJson) out dotdot).rest = q' ++ slashJson ∧
      q'.length ≤ q.length := by
  unfold cleanStep
  by_cases hc1 : c = '/'
  · rw [if_pos hc1]
    exact ⟨q, rfl, le_refl _⟩
  · rw [if_neg hc1]
    split
    · exact ⟨q, rfl, le_refl _⟩
    · split
      · rename_i hdd
        have hrest : ∃ q', (q ++ slashJson).tail = q' ++ slashJson ∧ q'.length ≤ q.length := by
          match q, hdd with
          | [], hdd =>
            exact absurd hdd.2.1 (by decide)
          | a :: q0, _ =>
            exact ⟨q0, rfl, by simp⟩
        split
        · exact hrest
        · split
          · exact hrest
          · exact hrest
      · refine ⟨q.dropWhile (fun x => x != '/'), ?_, length_dropWhile_le_self _ _⟩
        show List.dropWhile (fun x => x != '/') ((c :: q) ++ slashJson) = _
        rw [dropWhile_append_slashJson, List.dropWhile_cons, if_pos (by simpa using hc1)]

theorem cleanStep_rest_le (rooted : Bool) (c : Char) (t out : List Char) (dotdot : Nat) :
    (cleanStep rooted c t out dotdot).rest.length ≤ t.length := by
  have htail : t.tail.length ≤ t.length := by
    rw [List.length_tail]
    omega
  unfold cleanStep
  by_cases hc1 : c = '/'
  · rw [if_pos hc1]
  · rw [if_neg hc1]
    split
    · exact le_refl _
    · split
      · split
        · exact htail
        · split
          · exact htail
          · exact htail
      · show ((c :: t).dropWhile (fun x => x != '/')).length ≤ t.length
        rw [List.dropWhile_cons, if_pos (by simpa using hc1)]
        exact length_dropWhile_le_self _ _

theorem cleanLoop_fuel (rooted : Bool) (fuel : Nat) :
    ∀ (fuel' : Nat) (s : CleanState), s.rest.length ≤ fuel → s.rest.length ≤ fuel' →
      cleanLoop rooted fuel s = cleanLoop rooted fuel' s := by
  induction fuel with
  | zero =>
    intro fuel' s h _
    have hnil : s.rest = [] := List.length_eq_zero.1 (by omega)
    cases fuel' with
    | zero => rfl
    | succ k =>
      show s.out = cleanLoop rooted (k + 1) s
      unfold cleanLoop
      rw [hnil]
  | succ k ih =>
    intro fuel' s h h'
    match hs : s.rest with
    | [] =>
      have e1 : cleanLoop rooted (k + 1) s = s.out := by
        unfold cleanLoop
        rw [hs]
      have e2 : cleanLoop rooted fuel' s = s.out := by
        cases fuel' with
        | zero => rfl
        | succ j =>
          unfold cleanLoop
          rw [hs]
      rw [e1, e2]
    | c :: t =>
      rw [hs] at h h'
      simp only [List.length_cons] at h h'
      obtain ⟨j, rfl⟩ : ∃ j, fuel' = j + 1 := ⟨fuel' - 1, by omega⟩
      have hle := cleanStep_rest_le rooted c t s.out s.dotdot
      have e1 : cleanLoop rooted (k + 1) s =
          cleanLoop rooted k (cleanStep rooted c t s.out s.dotdot) := by
        rw [cleanLoop]
        simp only [hs]
      have e2 : cleanLoop rooted (j + 1) s =
          cleanLoop rooted j (cleanStep rooted c t s.out s.dotdot) := by
        rw [cleanLoop]
        simp only [hs]
      rw [e1, e2]
      exact ih j _ (by omega) (by omega)

theorem cleanLoop_nil (rooted : Bool) (fuel : Nat) (out : List Char) (dotdot : Nat) :
    cleanLoop rooted fuel { rest := [], out := out, dotdot := dotdot } = out := by
  cases fuel <;> rfl

theorem cleanLoop_json (rooted : Bool) (fuel : Nat) (out : List Char) (dotdot : Nat) :
    cleanLoop rooted (fuel + 1) { rest := ['j', 's', 'o', 'n'], out := out, dotdot := dotdot } =
      addSlash rooted out ++ ['j', 's', 'o', 'n'] := by
  have hstep : cleanStep rooted 'j' ['s', 'o', 'n'] out dotdot =
      { rest := [], out := addSlash rooted out ++ ['j', 's', 'o', 'n'], dotdot := dotdot } := by
    unfold cleanStep
    rw [if_neg (by decide), if_neg (by decide), if_neg (by decide)]
    rfl
  show cleanLoop rooted fuel (cleanStep rooted 'j' ['s', 'o', 'n'] out dotdot) = _
  rw [hstep, cleanLoop_nil]

theorem cleanLoop_slashJson (rooted : Bool) (fuel : Nat) :
    ∀ (q out : List Char) (dotdot : Nat), q.length + 5 ≤ fuel → CleanInv rooted out dotdot →
      ∃ out' d', CleanInv rooted out' d' ∧
        cleanLoop rooted fuel { rest := q ++ slashJson, out := out, dotdot := dotdot } =
          addSlash rooted out' ++ ['j', 's', 'o', 'n'] := by
  induction fuel with
  | zero =>
    intro q out dotdot hf
    omega
  | succ k ih =>
    intro q out dotdot hf hinv
    match q, hf with
    | [], hf =>
      obtain ⟨k', rfl⟩ : ∃ k', k = k' + 1 := ⟨k - 1, by simp at hf; omega⟩
      refine ⟨out, dotdot, hinv, ?_⟩
      show cleanLoop rooted (k' + 1) (cleanStep rooted '/' ['j', 's', 'o', 'n'] out dotdot) = _
      have hstep : cleanStep rooted '/' ['j', 's', 'o', 'n'] out dotdot =
          { rest := ['j', 's', 'o', 'n'], out := out, dotdot := dotdot } := by
        unfold cleanStep
        rw [if_pos rfl]
      rw [hstep, cleanLoop_json]
    | c :: q0, hf =>
      obtain ⟨q', hq', hlen⟩ := cleanStep_rest rooted c q0 out dotdot
      have hinv' := cleanStep_inv rooted c (q0 ++ slashJson) out dotdot hinv
      have hlen' : q'.length + 5 ≤ k := by
        simp only [List.length_cons] at hf
        omega
      obtain ⟨out', d', hI, hres⟩ := ih q' _ _ hlen' hinv'
      refine ⟨out', d', hI, ?_⟩
      show cleanLoop rooted k (cleanStep rooted c (q0 ++ slashJson) out dotdot) = _
      rw [← hres, ← hq']

theorem cleanChars_json : cleanChars ['j', 's', 'o', 'n'] = ['j', 's', 'o', 'n'] := by decide

theorem cleanChars_slashJson (p : List Char) (hp : p ≠ []) :
    ∃ pre, cleanChars (p ++ slashJson) = pre ++ ['j', 's', 'o', 'n'] ∧
      (pre = [] ∨ pre.getLast? = some '/') ∧
      List.Chain' NotBothSlash (pre ++ ['j', 's', 'o', 'n']) := by
  have hfin : ∀ (rooted : Bool) (out' : List Char) (d' : Nat), CleanInv rooted out' d' →
      (addSlash rooted out' = [] ∨ (addSlash rooted out').getLast? = some '/') ∧
      List.Chain' NotBothSlash (addSlash rooted out' ++ ['j', 's', 'o', 'n']) := by
    intro rooted out' d' hI
    exact ⟨addSlash_last rooted out' d' hI,
      (cleanInv_element rooted out' d' _ hI (by decide) (by decide)).2.2.1⟩
  have hne : ¬ (p ++ slashJson = []) := by simp [hp]
  unfold cleanChars
  rw [if_neg hne]
  match p, hp with
  | a :: p0, _ =>
    by_cases ha : a = '/'
    · subst ha
      have hinit : CleanInv true ['/'] 1 := by
        refine ⟨fun _ => ⟨rfl, rfl⟩, le_refl _, List.chain'_singleton _, fun _ => ⟨rfl, rfl⟩,
          fun _ => ⟨rfl, rfl⟩⟩
      obtain ⟨out', d', hI, hres⟩ :=
        cleanLoop_slashJson true (('/' :: p0) ++ slashJson).length p0 ['/'] 1
          (by simp [slashJson]) hinit
      refine ⟨addSlash true out', ?_, (hfin true out' d' hI).1, (hfin true out' d' hI).2⟩
      simp only [List.cons_append, List.head?_cons, decide_True, if_true, List.drop_succ_cons,
        List.drop_zero]
      simp only [List.cons_append] at hres
      rw [hres]
      simp [addSlash]
    · have hinit : CleanInv false [] 0 := by
        refine ⟨fun hr => Bool.noConfusion hr, le_refl _, List.chain'_nil, ?_, ?_⟩
        · intro hcon
          exact Option.noConfusion hcon
        · intro hcon
          exact Option.noConfusion hcon
      obtain ⟨out', d', hI, hres⟩ :=
        cleanLoop_slashJson false ((a :: p0) ++ slashJson).length (a :: p0) [] 0
          (by simp [slashJson]) hinit
      refine ⟨addSlash false out', ?_, (hfin false out' d' hI).1, (hfin false out' d' hI).2⟩
      simp only [List.cons_append] at hres ⊢
      have hdec : decide ((a :: (p0 ++ slashJson)).head? = some '/') = false := by
        simp [ha]
      simp only [hdec, Bool.false_eq_true, if_false]
      rw [hres]
      simp [addSlash]

theorem validateFlags_no_error (args : String) (f : Flags) :
    (validateFlags args f).1.filter isError = [] := by
  unfold validateFlags
  cases hh : f.hostAlert <;> cases hs : f.serviceAlert <;>
    by_cases h1 : f.alertTypeOverride = "" <;> by_cases h2 : f.alertName = "" <;>
    simp [h1, h2, isError]

theorem main_errors_of_receives (env : Env) (f : Flags) (res : Response)
    (hr : Receives env f res) :
    (main env f).events.filter isError =
      if reMatch regex2xx (sprintfD res.StatusCode) = false then
        [Event.log .error (some env.args) (msgNon2xx res)]
      else [] := by
  obtain ⟨h, hv, buff, u, hj, hu, hp⟩ := hr
  rw [main_of_valid env f h hv, deliver_of_response env f _ buff u res hj hu hp]
  have h1 := validateFlags_no_error env.args f
  by_cases hl : f.logFile = "" <;>
    by_cases hm : reMatch regex2xx (sprintfD res.StatusCode) = false <;>
    simp [hl, hm, List.filter_cons, isError, h1]

theorem reMatch_three_digits (n : Nat) (hlo : 100 ≤ n) (hhi : n ≤ 999) :
    reMatch regex2xx (formatNat n) = true ↔ 200 ≤ n ∧ n ≤ 299 := by
  rw [reMatch_regex2xx_iff, formatNat_three_digits n hlo hhi]
  have hd1 := digitChar_ne_newline (n / 10 % 10) (Nat.mod_lt _ (by omega))
  have hd0 := digitChar_ne_newline (n % 10) (Nat.mod_lt _ (by omega))
  have hd2 := digitChar_eq_two (n / 100) (by omega)
  constructor
  · rintro ⟨a, b, rest, heq, _, _⟩
    simp only [List.cons.injEq] at heq
    have := hd2.1 heq.1
    omega
  · intro hrange
    have h2 : n / 100 = 2 := by omega
    exact ⟨_, _, [], by rw [hd2.2 h2], hd1, hd0⟩

theorem reMatch_no_newline (s : List Char) (hs : ∀ c ∈ s, c ≠ '\n') :
    reMatch regex2xx s = true ↔ s.head? = some '2' ∧ 3 ≤ s.length := by
  rw [reMatch_regex2xx_iff]
  constructor
  · rintro ⟨a, b, rest, rfl, _, _⟩
    simp
  · rintro ⟨hhd, hlen⟩
    match s, hhd, hlen, hs with
    | d :: a :: b :: rest, hhd, _, hs =>
      simp only [List.head?_cons, Option.some.injEq] at hhd
      subst hhd
      exact ⟨a, b, rest, rfl, hs a (by simp), hs b (by simp)⟩

/-! ## Flag validation and the alert type -/

/-- C1: in a run that reaches flag validation, validation ends the process with
a fatal exit (status 1, no record built) if and only if one of the three rules
is violated; in that case exactly one fatal validation message is logged, and
otherwise none is and the alert record is built. -/
theorem C1_validation_fatal_iff (env : Env) (f : Flags) (h : ReachesValidation env f) :
    ((validateFlags env.args f).2 = some (.exit 1) ↔ Violated f) ∧
    (((main env f).alert = none ∧ (main env f).outcome = .exit 1) ↔ Violated f) ∧
    (Violated f →
      ((main env f).events.filter isValidationFatal).length = 1 ∧
      (main env f).outcome.exitCode ≠ 0) ∧
    (¬ Violated f →
      (main env f).events.filter isValidationFatal = [] ∧
      (main env f).alert = some (buildAlert env f)) := by
  have hcount := validateFlags_fatal_count env.args f
  have hnone := validateFlags_none_iff env.args f
  refine ⟨?_, ?_, ?_, ?_⟩
  · constructor
    · intro he
      by_contra hv
      rw [hnone.2 hv] at he
      exact Option.noConfusion he
    · intro hv
      have hne : (validateFlags env.args f).2 ≠ none := fun hn => hnone.1 hn hv
      obtain ⟨o, ho⟩ := Option.ne_none_iff_exists'.1 hne
      rw [ho, validateFlags_exit env.args f o ho]
  · constructor
    · rintro ⟨ha, _⟩
      by_contra hv
      rw [main_of_valid env f h hv] at ha
      exact Option.noConfusion ha
    · intro hv
      rw [main_of_violated env f h hv]
      exact ⟨rfl, rfl⟩
  · intro hv
    rw [main_of_violated env f h hv]
    refine ⟨?_, by simp [Outcome.exitCode]⟩
    have := hcount.1 hv
    by_cases hl : f.logFile = "" <;> simp [hl, List.filter_cons, isValidationFatal, this]
  · intro hv
    rw [main_of_valid env f h hv]
    refine ⟨?_, rfl⟩
    have h1 := hcount.2 hv
    have h2 := deliver_no_validation_fatal env f (buildAlert env f)
    by_cases hl : f.logFile = "" <;>
      simp [hl, List.filter_cons, isValidationFatal, h1, h2]

/-- Witness of C1: host alert with default flags, daemon answering 200. -/
theorem C1_validation_fatal_iff_witness :
    ReachesValidation env0 { hostAlert := true } ∧
    (main env0 { hostAlert := true }).events.filter isValidationFatal = [] ∧
    (main env0 { hostAlert := true }).alert = some (buildAlert env0 { hostAlert := true }) :=
  ⟨⟨rfl, Or.inl rfl⟩,
   (C1_validation_fatal_iff env0 { hostAlert := true } ⟨rfl, Or.inl rfl⟩).2.2.2 (by decide)⟩

/-- C2 fails as stated: with `-hostalert`, `-alert-type custom` and no
`-alert-name`, the warning is logged and then validation fails with the fatal
message about `-alert-name`, no record being built; with `-version` set as well
nothing is logged and no record is built; and when the log file cannot be
opened the process panics before validation. -/
theorem C2_counterexample :
    main env0 { hostAlert := true, alertTypeOverride := "custom" } =
      { events := [Event.log .warn (some "promsaint-cli") msgIgnored,
                   Event.log .fatal (some "promsaint-cli") msgNameNeeded],
        outcome := .exit 1, alert := none } ∧
    main env0 { hostAlert := true, alertTypeOverride := "custom", alertName := "n",
                versionFlag := true } =
      { events := [Event.stdout "Version: 1.0\n", Event.stdout "Built:   today\n"],
        outcome := .exit 0, alert := none } ∧
    main envNoLog { hostAlert := true, alertTypeOverride := "custom", alertName := "n",
                    logFile := "/var/log/p.log" } =
      { events := [Event.log .panic none "permission denied"],
        outcome := .panicked, alert := none } := by
  decide

/-- C2 (amended): with `-hostalert` set, `-servicealert` unset, a non-empty
`-alert-type` and a non-empty `-alert-name`, a run that reaches validation logs
the warning that `-alert-type` is ignored, passes validation without a fatal
message, and builds a record whose type is "host". -/
theorem C2_override_ignored (env : Env) (f : Flags) (h : ReachesValidation env f)
    (hh : f.hostAlert = true) (hs : f.serviceAlert = false)
    (ht : f.alertTypeOverride ≠ "") (hn : f.alertName ≠ "") :
    Event.log .warn (some env.args) msgIgnored ∈ (main env f).events ∧
    (validateFlags env.args f).2 = none ∧
    (main env f).events.filter isValidationFatal = [] ∧
    ∃ a, (main env f).alert = some a ∧ a.Type_ = "host" := by
  have hv : ¬ Violated f := by
    simp [Violated, hh, hs, ht, hn]
  have hC1 := (validateFlags_fatal_count env.args f).2 hv
  have hd := deliver_no_validation_fatal env f (buildAlert env f)
  rw [main_of_valid env f h hv]
  refine ⟨?_, (validateFlags_none_iff env.args f).2 hv, ?_, buildAlert env f, rfl, ?_⟩
  · simp [validateFlags, hh, hs, ht, hn]
  · by_cases hl : f.logFile = "" <;>
      simp [hl, List.filter_cons, isValidationFatal, hC1, hd]
  · simp [buildAlert, alertType, hh]

/-- Witness of C2 (amended). -/
theorem C2_override_ignored_witness :
    Event.log .warn (some env0.args) msgIgnored ∈
      (main env0 { hostAlert := true, alertTypeOverride := "custom", alertName := "n" }).events ∧
    (validateFlags env0.args
      { hostAlert := true, alertTypeOverride := "custom", alertName := "n" }).2 = none ∧
    (main env0 { hostAlert := true, alertTypeOverride := "custom",
                 alertName := "n" }).events.filter isValidationFatal = [] ∧
    ∃ a, (main env0 { hostAlert := true, alertTypeOverride := "custom",
                      alertName := "n" }).alert = some a ∧ a.Type_ = "host" :=
  C2_override_ignored env0 { hostAlert := true, alertTypeOverride := "custom", alertName := "n" }
    ⟨rfl, Or.inl rfl⟩ rfl rfl (by decide) (by decide)

/-- C3: in a run that reaches validation with flags that pass it, the record is
built and its type is "host" when `-hostalert` is set, "service" when
`-servicealert` is set, and otherwise the `-alert-type` string; in particular
`-alert-type custom -alert-name diskfull` with neither of the two flags passes
validation and yields the type "custom". -/
theorem C3_alert_type (env : Env) (f : Flags) (h : ReachesValidation env f) :
    (¬ Violated f →
      ∃ a, (main env f).alert = some a ∧
        (f.hostAlert = true → a.Type_ = "host") ∧
        (f.serviceAlert = true → a.Type_ = "service") ∧
        (f.hostAlert = false → f.serviceAlert = false → a.Type_ = f.alertTypeOverride)) ∧
    (f.alertTypeOverride = "custom" → f.alertName = "diskfull" →
      f.hostAlert = false → f.serviceAlert = false →
      ¬ Violated f ∧ ∃ a, (main env f).alert = some a ∧ a.Type_ = "custom") := by
  constructor
  · intro hv
    refine ⟨buildAlert env f, by rw [main_of_valid env f h hv], ?_, ?_, ?_⟩
    · intro hh
      simp [buildAlert, alertType, hh]
    · intro hs
      have hh : f.hostAlert = false := by
        cases hh : f.hostAlert
        · rfl
        · exact absurd (Or.inr (Or.inl ⟨hh, hs⟩)) hv
      simp [buildAlert, alertType, hh, hs]
    · intro hh hs
      simp [buildAlert, alertType, hh, hs]
  · intro ht hn hh hs
    have hv : ¬ Violated f := by
      simp [Violated, hh, hs, ht, hn]
    refine ⟨hv, buildAlert env f, by rw [main_of_valid env f h hv], ?_⟩
    simp [buildAlert, alertType, hh, hs, ht]

/-- Witness of C3: the override "custom" with the name "diskfull". -/
theorem C3_alert_type_witness :
    ReachesValidation env0 { alertTypeOverride := "custom", alertName := "diskfull" } ∧
    ¬ Violated { alertTypeOverride := "custom", alertName := "diskfull" } ∧
    ∃ a, (main env0 { alertTypeOverride := "custom", alertName := "diskfull" }).alert = some a ∧
      a.Type_ = "custom" :=
  ⟨⟨rfl, Or.inl rfl⟩,
   (C3_alert_type env0 { alertTypeOverride := "custom", alertName := "diskfull" }
      ⟨rfl, Or.inl rfl⟩).2 rfl rfl rfl rfl⟩

/-- C5: in a run that reaches validation with flags that pass it, if neither
`-hostalert` nor `-servicealert` is set then the record is built, its
`AlertName` is non-empty and its type is the non-empty `-alert-type` value. -/
theorem C5_override_needs_name (env : Env) (f : Flags) (h : ReachesValidation env f)
    (hv : ¬ Violated f) (hh : f.hostAlert = false) (hs : f.serviceAlert = false) :
    ∃ a, (main env f).alert = some a ∧ a.AlertName ≠ "" ∧
      a.Type_ = f.alertTypeOverride ∧ a.Type_ ≠ "" := by
  have ht : f.alertTypeOverride ≠ "" := fun ht => hv (Or.inl ⟨hh, hs, ht⟩)
  have hn : f.alertName ≠ "" := fun hn => hv (Or.inr (Or.inr ⟨ht, hn⟩))
  refine ⟨buildAlert env f, by rw [main_of_valid env f h hv], ?_, ?_, ?_⟩
  · simpa [buildAlert] using hn
  · simp [buildAlert, alertType, hh, hs]
  · simpa [buildAlert, alertType, hh, hs] using ht

/-- Witness of C5. -/
theorem C5_override_needs_name_witness :
    ∃ a, (main env0 { alertTypeOverride := "custom", alertName := "diskfull" }).alert = some a ∧
      a.AlertName ≠ "" ∧ a.Type_ = "custom" ∧ a.Type_ ≠ "" :=
  C5_override_needs_name env0 { alertTypeOverride := "custom", alertName := "diskfull" }
    ⟨rfl, Or.inl rfl⟩ (by decide) rfl rfl

/-! ## Exit behaviour -/

/-- C7: whenever the flags pass validation and a response is received from the
daemon, whatever its status code, `main` returns normally (exit status 0); and
every validation failure ends the process with a non-zero status. -/
theorem C7_exit_codes (env : Env) (f : Flags) :
    (∀ res, Receives env f res →
      (main env f).outcome = .returned ∧ (main env f).outcome.exitCode = 0) ∧
    (ReachesValidation env f → Violated f →
      (main env f).outcome = .exit 1 ∧ (main env f).outcome.exitCode ≠ 0) := by
  constructor
  · rintro res ⟨h, hv, buff, u, hj, hu, hp⟩
    rw [main_of_valid env f h hv, deliver_of_response env f _ buff u res hj hu hp]
    exact ⟨rfl, rfl⟩
  · intro h hv
    rw [main_of_violated env f h hv]
    exact ⟨rfl, by simp [Outcome.exitCode]⟩

/-- Witness of C7: a daemon answering 500 still gives exit status 0, and a run
with no type selected exits with status 1. -/
theorem C7_exit_codes_witness :
    Receives (envWith defaultURL res500) { hostAlert := true } res500 ∧
    (main (envWith defaultURL res500) { hostAlert := true }).outcome.exitCode = 0 ∧
    (main env0 { }).outcome = .exit 1 :=
  have hr : Receives (envWith defaultURL res500) { hostAlert := true } res500 :=
    ⟨⟨rfl, Or.inl rfl⟩, by decide, _, _, rfl, rfl, rfl⟩
  ⟨hr,
   ((C7_exit_codes (envWith defaultURL res500) { hostAlert := true }).1 res500 hr).2,
   ((C7_exit_codes env0 { }).2 ⟨rfl, Or.inl rfl⟩ (by decide)).1⟩

/-- C8: with `-version` set, whatever the other flags are, `main` prints exactly
the version line and the build-time line and exits with status 0; nothing is
logged, no record is built and nothing is posted. -/
theorem C8_version (env : Env) (f : Flags) (hver : f.versionFlag = true) :
    (main env f).events =
      [Event.stdout ("Version: " ++ env.Version ++ "\n"),
       Event.stdout ("Built:   " ++ env.BuildTime ++ "\n")] ∧
    (main env f).outcome = .exit 0 ∧
    (main env f).outcome.exitCode = 0 ∧
    (main env f).alert = none ∧
    (∀ e ∈ (main env f).events, ∃ t, e = Event.stdout t) := by
  simp [main, hver, Outcome.exitCode]

/-- Witness of C8: `-version` together with flags that would fail validation. -/
theorem C8_version_witness :
    (main env0 { versionFlag := true, hostAlert := true, serviceAlert := true }).events =
      [Event.stdout ("Version: " ++ env0.Version ++ "\n"),
       Event.stdout ("Built:   " ++ env0.BuildTime ++ "\n")] ∧
    (main env0 { versionFlag := true, hostAlert := true, serviceAlert := true }).outcome
      = .exit 0 :=
  ⟨(C8_version env0 { versionFlag := true, hostAlert := true, serviceAlert := true } rfl).1,
   (C8_version env0 { versionFlag := true, hostAlert := true, serviceAlert := true } rfl).2.1⟩

/-! ## Record construction -/

/-- C4: in a run that reaches validation with flags that pass it, the record is
built; its `Service` is the `-service` string with every space replaced by an
underscore (same length, no space left, every other character unchanged in
place) and its `Notify` is the `-notify` string converted to lower case
(character by character, ASCII letters by the ASCII rule); for "My Service"
and "Slack" this gives "My_Service" and "slack". -/
theorem C4_service_notify (env : Env) (f : Flags) (h : ReachesValidation env f)
    (hv : ¬ Violated f) :
    ∃ a, (main env f).alert = some a ∧
      a.Service.data = f.service.data.map (fun c => if c = ' ' then '_' else c) ∧
      a.Service.data.length = f.service.data.length ∧
      ' ' ∉ a.Service.data ∧
      (∀ (i : Nat) (c : Char), f.service.data[i]? = some c → c ≠ ' ' →
        a.Service.data[i]? = some c) ∧
      (∀ i : Nat, f.service.data[i]? = some ' ' → a.Service.data[i]? = some '_') ∧
      a.Notify.data = f.notify.data.map (unicodeToLower env) ∧
      a.Notify.data.length = f.notify.data.length ∧
      (∀ (i : Nat) (c : Char), f.notify.data[i]? = some c → c.toNat ≤ 127 →
        a.Notify.data[i]? = some c.toLower) ∧
      (f.service = "My Service" → a.Service = "My_Service") ∧
      (f.notify = "Slack" → a.Notify = "slack") := by
  have hS : (buildAlert env f).Service.data =
      f.service.data.map (fun c => if c = ' ' then '_' else c) :=
    stringsReplaceAll_space f.service
  have hN : (buildAlert env f).Notify.data = f.notify.data.map (unicodeToLower env) := rfl
  refine ⟨buildAlert env f, by rw [main_of_valid env f h hv], hS, ?_, ?_, ?_, ?_, hN, ?_, ?_,
    ?_, ?_⟩
  · rw [hS, List.length_map]
  · rw [hS]
    intro hmem
    obtain ⟨c, _, hc⟩ := List.mem_map.1 hmem
    by_cases hsp : c = ' '
    · rw [if_pos hsp] at hc
      exact absurd hc (by decide)
    · rw [if_neg hsp] at hc
      exact hsp hc
  · intro i c hi hc
    rw [hS, List.getElem?_map, hi]
    simp [hc]
  · intro i hi
    rw [hS, List.getElem?_map, hi]
    simp
  · rw [hN, List.length_map]
  · intro i c hi hc
    rw [hN, List.getElem?_map, hi]
    simp [unicodeToLower_ascii env c hc]
  · intro hs
    apply String.ext
    rw [hS, hs]
    decide
  · intro hn
    apply String.ext
    rw [hN, hn]
    show List.map (unicodeToLower env) ['S', 'l', 'a', 'c', 'k'] = ['s', 'l', 'a', 'c', 'k']
    simp only [List.map]
    rw [unicodeToLower_ascii env 'S' (by decide), unicodeToLower_ascii env 'l' (by decide),
      unicodeToLower_ascii env 'a' (by decide), unicodeToLower_ascii env 'c' (by decide),
      unicodeToLower_ascii env 'k' (by decide)]
    decide

/-- Witness of C4: the example of the specification. -/
theorem C4_service_notify_witness :
    ∃ a, (main env0 { hostAlert := true, service := "My Service", notify := "Slack" }).alert
        = some a ∧ a.Service = "My_Service" ∧ a.Notify = "slack" :=
  match C4_service_notify env0 { hostAlert := true, service := "My Service", notify := "Slack" }
      ⟨rfl, Or.inl rfl⟩ (by decide) with
  | ⟨a, ha, _, _, _, _, _, _, _, _, hs, hn⟩ => ⟨a, ha, hs rfl, hn rfl⟩

/-! ## Response handling -/

/-- C6: when a response is received whose status code lies in 100..999, `main`
logs the "non 2xx" error entry, whose message ends with the response's status
line, if and only if the code is outside 200..299; a 2xx response (200 in
particular) produces no error entry, any other (500 in particular) produces
exactly that one, and when the status line begins with the decimal code, as
in "500 Internal Server Error", the message contains the code. -/
theorem C6_non2xx_logged (env : Env) (f : Flags) (res : Response)
    (hr : Receives env f res) (hlo : 100 ≤ res.StatusCode) (hhi : res.StatusCode ≤ 999) :
    (Event.log .error (some env.args) (msgNon2xx res) ∈ (main env f).events ↔
      ¬ (200 ≤ res.StatusCode ∧ res.StatusCode ≤ 299)) ∧
    (200 ≤ res.StatusCode ∧ res.StatusCode ≤ 299 →
      (main env f).events.filter isError = []) ∧
    (¬ (200 ≤ res.StatusCode ∧ res.StatusCode ≤ 299) →
      (main env f).events.filter isError =
        [Event.log .error (some env.args) (msgNon2xx res)]) ∧
    msgNon2xx res = "Promsaint responded with non 2xx error: " ++ res.Status ∧
    (sprintfD res.StatusCode <+: res.Status.data →
      sprintfD res.StatusCode <:+: (msgNon2xx res).data) ∧
    (res.StatusCode = 200 → (main env f).events.filter isError = []) ∧
    (res.StatusCode = 500 → sprintfD res.StatusCode = ['5', '0', '0'] ∧
      Event.log .error (some env.args) (msgNon2xx res) ∈ (main env f).events) := by
  have herr := main_errors_of_receives env f res hr
  obtain ⟨n, hn⟩ := Int.eq_ofNat_of_zero_le (by omega : 0 ≤ res.StatusCode)
  have hm : reMatch regex2xx (sprintfD res.StatusCode) = true ↔
      (200 ≤ res.StatusCode ∧ res.StatusCode ≤ 299) := by
    rw [hn, sprintfD_natCast, reMatch_three_digits n (by omega) (by omega)]
    omega
  have h2xx : 200 ≤ res.StatusCode ∧ res.StatusCode ≤ 299 →
      (main env f).events.filter isError = [] := by
    intro hrange
    rw [herr, if_neg (by simp [hm.2 hrange])]
  have hnot : ¬ (200 ≤ res.StatusCode ∧ res.StatusCode ≤ 299) →
      (main env f).events.filter isError =
        [Event.log .error (some env.args) (msgNon2xx res)] := by
    intro hrange
    have : reMatch regex2xx (sprintfD res.StatusCode) = false := by
      cases hb : reMatch regex2xx (sprintfD res.StatusCode)
      · rfl
      · exact absurd (hm.1 hb) hrange
    rw [herr, if_pos this]
  have hmem : Event.log .error (some env.args) (msgNon2xx res) ∈ (main env f).events ↔
      ¬ (200 ≤ res.StatusCode ∧ res.StatusCode ≤ 299) := by
    constructor
    · intro hin hrange
      have : Event.log .error (some env.args) (msgNon2xx res) ∈
          (main env f).events.filter isError := List.mem_filter.2 ⟨hin, rfl⟩
      rw [h2xx hrange] at this
      exact absurd this (List.not_mem_nil _)
    · intro hrange
      have : Event.log .error (some env.args) (msgNon2xx res) ∈
          (main env f).events.filter isError := by
        rw [hnot hrange]
        exact List.mem_singleton.2 rfl
      exact (List.mem_filter.1 this).1
  refine ⟨hmem, h2xx, hnot, rfl, ?_, ?_, ?_⟩
  · rintro ⟨t, ht⟩
    refine ⟨"Promsaint responded with non 2xx error: ".data, t, ?_⟩
    rw [List.append_assoc, ht]
    rfl
  · intro h200
    exact h2xx (by omega)
  · intro h500
    refine ⟨by rw [h500]; decide, hmem.2 (by omega)⟩

/-- Witness of C6: a daemon answering "500 Internal Server Error". -/
theorem C6_non2xx_logged_witness :
    Receives (envWith defaultURL res500) { hostAlert := true } res500 ∧
    Event.log .error (some "promsaint-cli")
        "Promsaint responded with non 2xx error: 500 Internal Server Error" ∈
      (main (envWith defaultURL res500) { hostAlert := true }).events :=
  have hr : Receives (envWith defaultURL res500) { hostAlert := true } res500 :=
    ⟨⟨rfl, Or.inl rfl⟩, by decide, _, _, rfl, rfl, rfl⟩
  ⟨hr, ((C6_non2xx_logged (envWith defaultURL res500) { hostAlert := true } res500 hr
      (by decide) (by decide)).2.2.2.2.2.2 rfl).2⟩

/-- C10: when a response with a non-negative status code `c` is received, `main`
logs no error entry exactly when the decimal rendering of `c` starts with the
digit 2 and has at least three characters; so the code 2000 is accepted
although it lies outside 200..299, while 2 and 20 are not. -/
theorem C10_pattern_unanchored (env : Env) (f : Flags) (res : Response) (c : Nat)
    (hr : Receives env f res) (hc : res.StatusCode = (c : Int)) :
    ((main env f).events.filter isError = [] ↔
      ((sprintfD c).head? = some '2' ∧ 3 ≤ (sprintfD c).length)) ∧
    sprintfD c = (if c = 0 then ['0'] else ((Nat.digits 10 c).map digitChar).reverse) ∧
    (c = 2000 → (main env f).events.filter isError = []) ∧
    (c = 2 → (main env f).events.filter isError ≠ []) ∧
    (c = 20 → (main env f).events.filter isError ≠ []) := by
  have herr := main_errors_of_receives env f res hr
  rw [hc] at herr
  have hm := reMatch_no_newline (sprintfD c)
    (by rw [sprintfD_natCast]; exact formatNat_no_newline c)
  have hiff : (main env f).events.filter isError = [] ↔
      ((sprintfD c).head? = some '2' ∧ 3 ≤ (sprintfD c).length) := by
    rw [← hm, herr]
    cases reMatch regex2xx (sprintfD c) <;> simp
  refine ⟨hiff, ?_, ?_, ?_, ?_⟩
  · rw [sprintfD_natCast]
    by_cases h0 : c = 0
    · subst h0
      decide
    · rw [if_neg h0, formatNat_eq_digits c (Nat.pos_of_ne_zero h0)]
  · intro h
    subst h
    exact hiff.2 (by decide)
  · intro h
    subst h
    exact fun hnil => absurd (hiff.1 hnil) (by decide)
  · intro h
    subst h
    exact fun hnil => absurd (hiff.1 hnil) (by decide)

/-- Witness of C10: a daemon answering with the status code 2000. -/
theorem C10_pattern_unanchored_witness :
    Receives (envWith defaultURL { StatusCode := 2000, Status := "2000 Odd", Body := "" })
      { hostAlert := true } { StatusCode := 2000, Status := "2000 Odd", Body := "" } ∧
    (main (envWith defaultURL { StatusCode := 2000, Status := "2000 Odd", Body := "" })
      { hostAlert := true }).events.filter isError = [] :=
  have hr : Receives (envWith defaultURL { StatusCode := 2000, Status := "2000 Odd", Body := "" })
      { hostAlert := true } { StatusCode := 2000, Status := "2000 Odd", Body := "" } :=
    ⟨⟨rfl, Or.inl rfl⟩, by decide, _, _, rfl, rfl, rfl⟩
  ⟨hr, (C10_pattern_unanchored _ _ _ 2000 hr rfl).2.2.1 rfl⟩

theorem pathJoin_json_data (p : String) :
    (pathJoin [p, "json"]).data =
      if p = "" then ['j', 's', 'o', 'n'] else cleanChars (p.data ++ slashJson) := by
  by_cases hp : p = ""
  · subst hp
    rw [if_pos rfl]
    decide
  · rw [if_neg hp]
    have hd : List.dropWhile (fun e => decide (e = "")) [p, "json"] = [p, "json"] := by
      simp [List.dropWhile_cons, hp]
    unfold pathJoin
    rw [hd]
    simp only [pathClean, String.intercalate, String.intercalate.go, String.data_append]
    rw [List.append_assoc]
    rfl

theorem pathJoin_json_shape (p : String) :
    ∃ pre, (pathJoin [p, "json"]).data = pre ++ ['j', 's', 'o', 'n'] ∧
      (pre = [] ∨ pre.getLast? = some '/') ∧
      List.Chain' NotBothSlash (pathJoin [p, "json"]).data := by
  rw [pathJoin_json_data]
  by_cases hp : p = ""
  · rw [if_pos hp]
    exact ⟨[], rfl, Or.inl rfl, chain_of_no_slash _ (by decide)⟩
  · rw [if_neg hp]
    have hne : p.data ≠ [] := fun h => hp (String.ext h)
    obtain ⟨pre, h1, h2, h3⟩ := cleanChars_slashJson p.data hne
    exact ⟨pre, h1, h2, by rw [h1]; exact h3⟩

theorem main_posts (env : Env) (f : Flags) (u : URL) (buff : String)
    (h : ReachesValidation env f) (hv : ¬ Violated f)
    (hj : env.jsonEncode (buildAlert env f) = .ok buff)
    (hu : env.urlParse f.promsaintUrl = .ok u) :
    Event.post (targetURL env u) "application/json" buff ∈ (main env f).events := by
  have hd : Event.post (targetURL env u) "application/json" buff ∈
      (deliver env f (buildAlert env f)).1 := by
    unfold deliver
    simp only [hj, hu]
    split
    · simp
    · split <;> simp
  rw [main_of_valid env f h hv]
  exact List.mem_append_right _ hd

/-! ## The POST target -/

/-- C9: whenever `main` gets as far as posting, the target is the parsed daemon
URL with its path `p` replaced by `path.Join(p, "json")`. For every `p` that
path ends in the segment "json" (it is "json" itself or ends in "/json"), has
no two adjacent slashes and no trailing slash, so trailing or repeated slashes
in `p` yield no empty segment; and the default daemon URL, whose path is empty,
gives the target `http://localhost:8080/json` (the host and the path "json"
needing no escaping). -/
theorem C9_target_path (env : Env) :
    (∀ (f : Flags) (u : URL) (buff : String), ReachesValidation env f → ¬ Violated f →
      env.jsonEncode (buildAlert env f) = .ok buff → env.urlParse f.promsaintUrl = .ok u →
      Event.post (urlString env { u with Path := pathJoin [u.Path, "json"] })
        "application/json" buff ∈ (main env f).events) ∧
    (∀ p : String, ∃ pre, (pathJoin [p, "json"]).data = pre ++ "json".data ∧
      (pre = [] ∨ pre.getLast? = some '/')) ∧
    (∀ p : String, ¬ (['/', '/'] <:+: (pathJoin [p, "json"]).data) ∧
      (pathJoin [p, "json"]).data.getLast? ≠ some '/') ∧
    pathJoin ["", "json"] = "json" ∧
    pathJoin ["/api/", "json"] = "/api/json" ∧
    pathJoin ["/a//b/", "json"] = "/a/b/json" ∧
    (env.escapeHost "localhost:8080" = "localhost:8080" →
      env.escapedPath { defaultURL with Path := "json" } = "json" →
      targetURL env defaultURL = "http://localhost:8080/json") := by
  refine ⟨?_, ?_, ?_, by decide, by decide, by decide, ?_⟩
  · intro f u buff h hv hj hu
    exact main_posts env f u buff h hv hj hu
  · intro p
    obtain ⟨pre, h1, h2, _⟩ := pathJoin_json_shape p
    exact ⟨pre, h1, h2⟩
  · intro p
    obtain ⟨pre, h1, _, h3⟩ := pathJoin_json_shape p
    constructor
    · intro hinf
      have hch := h3.infix hinf
      rcases (List.chain'_cons.1 hch).1 with hR | hR <;> exact hR rfl
    · rw [h1, List.getLast?_append_of_ne_nil pre (by decide)]
      decide
  · intro hh hp
    have hj : pathJoin [defaultURL.Path, "json"] = "json" := by decide
    have key : ∀ u : URL, u = { Scheme := "http", Host := "localhost:8080", Path := "json" } →
        env.escapedPath u = "json" → urlString env u = "http://localhost:8080/json" := by
      intro u hu he
      unfold urlString
      rw [he]
      subst hu
      simp only [hh]
      rw [if_neg (by decide)]
      rfl
    unfold targetURL
    rw [hj]
    exact key _ rfl hp

/-- Witness of C9: the default daemon URL and a host alert. -/
theorem C9_target_path_witness :
    Event.post "http://localhost:8080/json" "application/json" "" ∈
      (main env0 { hostAlert := true }).events ∧
    targetURL env0 defaultURL = "http://localhost:8080/json" :=
  have ht : targetURL env0 defaultURL = "http://localhost:8080/json" :=
    (C9_target_path env0).2.2.2.2.2.2 rfl rfl
  ⟨by
    have hp := (C9_target_path env0).1 { hostAlert := true } defaultURL ""
      ⟨rfl, Or.inl rfl⟩ (by decide) rfl rfl
    exact ht ▸ hp, ht⟩

end Promsaint
